import Mathlib

/-!
Verification development for the ART robotics motion-control toolkit.

The C++ sources are shallowly embedded: `double` arithmetic is modelled as
exact arithmetic over the rationals (for the unit classes, the PID
controller, the tank-drive mixer and the blocking motion loops) or over the
reals (for the 2D vector class and the odometry step, which use sqrt, sin,
cos and M_PI).  Decimal literals from the source are kept exactly as
written; in particular the source's nine-digit constant 3.14159265 used by
the Angle class is NOT the real number pi, and the development keeps the
two apart.  Wall-clock time is passed explicitly as a rational number of
seconds.  Sensor readings consumed inside loops are supplied as explicit
input streams, and each while-loop is modelled either by well-founded
recursion (when the source loop provably terminates) or by a fuel
parameter returning `none` when the loop has not yet exited.
-/

namespace ART

/-- The nine-digit decimal literal 3.14159265f that the Angle code of
Units.cpp uses for pi. -/
def piA : ℚ := 3.14159265

/-- Model of art::Length from Units.h/Units.cpp: a single scalar stored in
the internal unit (pixels). -/
structure Length where
  m_value : ℚ
  deriving DecidableEq

/-- Length::pixels from Units.cpp. -/
def Length.pixels (l : Length) : ℚ := l.m_value

/-- Length::inches from Units.cpp. -/
def Length.inches (l : Length) : ℚ := l.m_value * 0.2

/-- Length::feet from Units.cpp. -/
def Length.feet (l : Length) : ℚ := l.inches / 12

/-- Length::meters from Units.cpp. -/
def Length.meters (l : Length) : ℚ := l.inches * 0.0254

/-- Length::centimeters from Units.cpp. -/
def Length.centimeters (l : Length) : ℚ := l.inches * 2.54

/-- Length::millimeters from Units.cpp. -/
def Length.millimeters (l : Length) : ℚ := l.inches * 25.4

/-- Length::tiles from Units.cpp. -/
def Length.tiles (l : Length) : ℚ := l.inches / 24

/-- art::Pixels constructor from Units.cpp. -/
def Pixels (pixels : ℚ) : Length := ⟨pixels⟩

/-- art::Inches constructor from Units.cpp. -/
def Inches (inches : ℚ) : Length := ⟨inches * 5⟩

/-- art::Feet constructor from Units.cpp. -/
def Feet (feet : ℚ) : Length := ⟨feet * 5 * 12⟩

/-- art::Meters constructor from Units.cpp (built on Inches, then scaled). -/
def Meters (meters : ℚ) : Length := ⟨(Inches meters).m_value * 39.3700787402⟩

/-- art::Centimeters constructor from Units.cpp. -/
def Centimeters (centimeters : ℚ) : Length := ⟨(Inches centimeters).m_value * 0.393700787402⟩

/-- art::Millimeters constructor from Units.cpp. -/
def Millimeters (millimeters : ℚ) : Length := ⟨(Inches millimeters).m_value * 0.0393700787402⟩

/-- art::Tiles constructor from Units.cpp. -/
def Tiles (tiles : ℚ) : Length := ⟨(Inches tiles).m_value * 24⟩

/-- Model of art::Angle from Units.h/Units.cpp: a single scalar stored in
radians. -/
structure Angle where
  m_value : ℚ
  deriving DecidableEq

/-- art::Degrees constructor from Units.cpp: degrees * 3.14159265f / 180. -/
def Degrees (degrees : ℚ) : Angle := ⟨degrees * piA / 180⟩

/-- art::Radians constructor from Units.cpp. -/
def Radians (radians : ℚ) : Angle := ⟨radians⟩

/-- art::Revolutions constructor from Units.cpp: revolutions * 2 * 3.14159265f. -/
def Revolutions (revolutions : ℚ) : Angle := ⟨revolutions * 2 * piA⟩

/-- Angle::degrees from Units.cpp. -/
def Angle.degrees (a : Angle) : ℚ := a.m_value * 180 / piA

/-- Angle::radians from Units.cpp. -/
def Angle.radians (a : Angle) : ℚ := a.m_value

/-- Angle::revolutions from Units.cpp: m_value / (3.14159265f * 2). -/
def Angle.revolutions (a : Angle) : ℚ := a.m_value / (piA * 2)

/-- First while-loop of Angle::constrain (Units.cpp lines 147-150): while
the value exceeds 3.14159265 subtract one full turn. -/
def subLoop (m : ℚ) : ℚ :=
  if m > piA then subLoop (m - 2 * piA) else m
termination_by (⌈(m - piA) / (2 * piA)⌉).toNat
decreasing_by
  have hpi : (0:ℚ) < 2 * piA := by norm_num [piA]
  have h1 : (m - 2 * piA - piA) / (2 * piA) = (m - piA) / (2 * piA) - 1 := by
    field_simp
    ring
  have h2 : (0:ℚ) < (m - piA) / (2 * piA) := by
    apply div_pos _ hpi
    linarith
  have h3 : ⌈(m - piA) / (2 * piA) - (1:ℚ)⌉ = ⌈(m - piA) / (2 * piA)⌉ - 1 := by
    exact_mod_cast Int.ceil_sub_int ((m - piA) / (2 * piA)) 1
  rw [h1, h3]
  have h4 : 0 < ⌈(m - piA) / (2 * piA)⌉ := Int.ceil_pos.mpr h2
  omega

/-- Second while-loop of Angle::constrain (Units.cpp lines 151-154): while
the value is below -3.14159265 add one full turn. -/
def addLoop (m : ℚ) : ℚ :=
  if m < -piA then addLoop (m + 2 * piA) else m
termination_by (⌈((-piA) - m) / (2 * piA)⌉).toNat
decreasing_by
  have hpi : (0:ℚ) < 2 * piA := by norm_num [piA]
  have h1 : ((-piA) - (m + 2 * piA)) / (2 * piA) = ((-piA) - m) / (2 * piA) - 1 := by
    field_simp
    ring
  have h2 : (0:ℚ) < ((-piA) - m) / (2 * piA) := by
    apply div_pos _ hpi
    linarith
  have h3 : ⌈((-piA) - m) / (2 * piA) - (1:ℚ)⌉ = ⌈((-piA) - m) / (2 * piA)⌉ - 1 := by
    exact_mod_cast Int.ceil_sub_int (((-piA) - m) / (2 * piA)) 1
  rw [h1, h3]
  have h4 : 0 < ⌈((-piA) - m) / (2 * piA)⌉ := Int.ceil_pos.mpr h2
  omega

/-- Angle::constrain from Units.cpp lines 145-155: run the subtracting
loop, then the adding loop, on the stored radian value. -/
def Angle.constrain (a : Angle) : Angle := ⟨addLoop (subLoop a.m_value)⟩

/-- art::shortestTurnPath from Units.cpp lines 188-208. -/
def shortestTurnPath (target : Angle) : Angle :=
  let angle := target.constrain
  if |angle.revolutions| < 0.5 then
    angle
  else
    if angle.revolutions > 0 then
      Revolutions (1 - angle.revolutions)
    else
      Revolutions (1 + angle.revolutions)

/-- Model of the mutable state of art::PID (PID.h).  All doubles are
rationals; the two chrono TimePoints are rational numbers of seconds. -/
structure PIDState where
  m_error : ℚ
  m_prevError : ℚ
  m_derivative : ℚ
  m_integral : ℚ
  m_kp : ℚ
  m_ki : ℚ
  m_kd : ℚ
  m_ff : ℚ
  m_integralZone : ℚ
  m_timeout : ℚ
  m_settleZone : ℚ
  m_settleTimeout : ℚ
  m_startTime : ℚ
  m_startSettledTime : ℚ
  deriving DecidableEq

/-- PID::PID from PID.cpp lines 19-23: member initializers give every field
0, then setConstants(1, 0, 0, 0); the start time is the construction
instant. -/
def PID.construct (now : ℚ) : PIDState :=
  { m_error := 0, m_prevError := 0, m_derivative := 0, m_integral := 0,
    m_kp := 1, m_ki := 0, m_kd := 0, m_ff := 0,
    m_integralZone := 0, m_timeout := 0, m_settleZone := 0, m_settleTimeout := 0,
    m_startTime := now, m_startSettledTime := now }

/-- PID::reset from PID.cpp lines 25-35. -/
def PID.reset (s : PIDState) (now : ℚ) : PIDState :=
  { s with m_error := 0, m_prevError := 0, m_derivative := 0, m_integral := 0,
           m_startTime := now, m_startSettledTime := now }

/-- PID::calculate(error) from PID.cpp lines 94-121, returning the output
together with the updated state; `now` is the wall-clock instant of the
call (used only by the settle-window restart).  The commented-out
sign-flip block of the source (lines 107-110) has no effect and is
omitted. -/
def PID.calculate (s : PIDState) (error : ℚ) (now : ℚ) : ℚ × PIDState :=
  let derivative := s.m_prevError - error
  let integral := if |error| < s.m_integralZone then s.m_integral + error else (0:ℚ)
  let startSettled := if |error| > s.m_settleZone then now else s.m_startSettledTime
  let output := s.m_kp * error + s.m_kd * derivative + s.m_ki * integral + s.m_ff
  (output,
   { s with m_error := error, m_prevError := error, m_derivative := derivative,
            m_integral := integral, m_startSettledTime := startSettled })

/-- PID::timePassed from PID.cpp lines 140-144 (the millisecond
truncation of the chrono duration is dropped: time is already exact
here). -/
def PID.timePassed (s : PIDState) (now : ℚ) : ℚ := now - s.m_startTime

/-- PID::settledTimePassed from PID.cpp lines 146-150. -/
def PID.settledTimePassed (s : PIDState) (now : ℚ) : ℚ := now - s.m_startSettledTime

/-- PID::isCompleted from PID.cpp lines 127-138. -/
def PID.isCompleted (s : PIDState) (now : ℚ) : Bool :=
  if PID.timePassed s now > s.m_timeout ∧ s.m_timeout ≠ 0 then true
  else if PID.settledTimePassed s now > s.m_settleTimeout ∧ s.m_settleTimeout ≠ 0 then true
  else false

/-- A sequence of calculate calls: each element is (call instant, error fed
in), folded through PID::calculate. -/
def runPID (s : PIDState) (calls : List (ℚ × ℚ)) : PIDState :=
  calls.foldl (fun st c => (PID.calculate st c.2 c.1).2) s

/-- Model of art::TankDrive (TankDrive.h/TankDrive.cpp): the three stored
commands plus the two per-side commands last committed to the motor
groups by update(). -/
structure TankDrive where
  m_cmdX : ℚ
  m_cmdY : ℚ
  m_cmdRot : ℚ
  leftCmd : ℚ
  rightCmd : ℚ
  deriving DecidableEq

/-- TankDrive::update from TankDrive.cpp lines 52-56: commit
cmdY + cmdRot to the left side and cmdY - cmdRot to the right side (no
clamping here; the motor abstraction clamps). -/
def TankDrive.update (d : TankDrive) : TankDrive :=
  { d with leftCmd := d.m_cmdY + d.m_cmdRot, rightCmd := d.m_cmdY - d.m_cmdRot }

/-- Three-argument TankDrive::arcade from TankDrive.cpp lines 22-28. -/
def TankDrive.arcade3 (d : TankDrive) (x y rot : ℚ) : TankDrive :=
  TankDrive.update { d with m_cmdX := x, m_cmdY := y, m_cmdRot := rot }

/-- Two-argument TankDrive::arcade from TankDrive.cpp lines 29-34. -/
def TankDrive.arcade (d : TankDrive) (drive rot : ℚ) : TankDrive :=
  TankDrive.update { d with m_cmdY := drive, m_cmdRot := rot }

/-- TankDrive::tank from TankDrive.cpp lines 35-39. -/
def TankDrive.tank (d : TankDrive) (left right : ℚ) : TankDrive :=
  TankDrive.update { d with m_cmdY := left + right, m_cmdRot := left - right }

noncomputable section RealModel

/-- Model of art::Vec2 (Vec2.cpp) over the reals. -/
structure Vec2 where
  x : ℝ
  y : ℝ

/-- Vec2::XandY from Vec2.cpp lines 96-102. -/
def Vec2.XandY (x y : ℝ) : Vec2 := ⟨x, y⟩

/-- Vec2::operator+ from Vec2.cpp lines 52-56. -/
def Vec2.add (a b : Vec2) : Vec2 := Vec2.XandY (a.x + b.x) (a.y + b.y)

/-- Vec2::magnitude from Vec2.cpp lines 21-24: sqrt(pow(x,2) + pow(y,2)). -/
def Vec2.magnitude (v : Vec2) : ℝ := Real.sqrt (v.x ^ 2 + v.y ^ 2)

/-- Vec2::normalize from Vec2.cpp lines 33-38: scale by 1/magnitude with
no guard against a zero magnitude. -/
def Vec2.normalize (v : Vec2) : Vec2 :=
  let scale := 1 / v.magnitude
  Vec2.XandY (v.x * scale) (v.y * scale)

/-- Vec2::dirAndMag from Vec2.cpp lines 104-110: compass convention,
x = mag*sin(dir), y = mag*cos(dir). -/
def Vec2.dirAndMag (dir mag : ℝ) : Vec2 := ⟨mag * Real.sin dir, mag * Real.cos dir⟩

/-- The sign computation `std::abs(target)/target` used with no zero guard
by SmartDrive::driveFor (line 96) and SmartDrive::turnFor (line 138);
for a nonzero argument its value is exactly 1 or -1 and the int cast of
the source is the identity on it. -/
def dirSign (target : ℝ) : ℝ := |target| / target

/-- The source's pi literal, as a real number, for the real-valued
odometry model (Degrees uses 3.14159265f, NOT M_PI). -/
def piAR : ℝ := 3.14159265

/-- art::Degrees seen as a map on raw scalars over the reals:
degrees * 3.14159265f / 180. -/
def degreesToRad (d : ℝ) : ℝ := d * piAR / 180

/-- SmartDrive::getWheelTravel from SmartDrive.cpp lines 215-217:
M_PI * m_wheelSize * m_gearRatio (this one uses the true pi). -/
def getWheelTravel (wheelSize gearRatio : ℝ) : ℝ := Real.pi * wheelSize * gearRatio

/-- Configuration of the optional HorizontalTracker (SmartDrive.h):
wheel diameter, gear ratio and mounting offset, all as raw internal
scalars.  When no tracker is configured the default m_offset is the
zero Length. -/
structure TrackerCfg where
  m_wheelSize : ℝ
  m_gearRatio : ℝ
  m_offset : ℝ

/-- The mutable state read and written by one iteration of
SmartDrive::track: tracked heading, the two last shaft angles kept by
getLeftTravel/getRightTravel, the tracker's last angle, and the two pose
vectors. -/
structure SmartState where
  m_dir : ℝ
  m_LastLeftPos : ℝ
  m_LastRightPos : ℝ
  trackerLastAngle : ℝ
  m_pos : Vec2
  m_centerPos : Vec2

/-- The sensor readings consumed by one iteration of SmartDrive::track:
inertial heading and the three encoder positions, all in degrees as the
source reads them. -/
structure TrackInput where
  headingDeg : ℝ
  leftDeg : ℝ
  rightDeg : ℝ
  trackerDeg : ℝ

/-- One iteration of the infinite loop of SmartDrive::track
(SmartDrive.cpp lines 59-88), including getLeftTravel/getRightTravel
(lines 237-252) and HorizontalTracker::getTravel (lines 226-235).  The
heading re-synchronisation write to the inertial sensor (lines 62-65)
only affects the external sensor, whose readings are inputs here, and the
static prevDir cell feeds only that write, so neither appears in the
state.  Angle travels are (Degrees reading) differences; travel =
revolutions() * getWheelTravel(); the tracker distance is
travelAngle * (wheelSize/2) * gearRatio added at heading + 90 degrees. -/
def trackIter (wheelSize gearRatio : ℝ) (tracker : Option TrackerCfg)
    (s : SmartState) (i : TrackInput) : SmartState :=
  let dir := degreesToRad i.headingDeg
  let newLeft := degreesToRad i.leftDeg
  let newRight := degreesToRad i.rightDeg
  let wheelTravel := ((newLeft - s.m_LastLeftPos) + (newRight - s.m_LastRightPos)) / 2
  let travel := wheelTravel / (piAR * 2) * getWheelTravel wheelSize gearRatio
  let posChange := Vec2.dirAndMag dir travel
  let newTrackerAngle := degreesToRad i.trackerDeg
  let posChange2 :=
    match tracker with
    | none => posChange
    | some t =>
      let hTravel := (newTrackerAngle - s.trackerLastAngle) * (t.m_wheelSize / 2) * t.m_gearRatio
      posChange.add (Vec2.dirAndMag (dir + degreesToRad 90) hTravel)
  let offsetLen := match tracker with
    | none => (0:ℝ)
    | some t => t.m_offset
  let newPos := s.m_pos.add posChange2
  { m_dir := dir, m_LastLeftPos := newLeft, m_LastRightPos := newRight,
    trackerLastAngle := newTrackerAngle,
    m_pos := newPos,
    m_centerPos := newPos.add (Vec2.dirAndMag dir offsetLen) }

/-- The average shaft rotation of the two drive sides since the previous
iteration, expressed in revolutions, exactly as track() computes it:
Angle((getLeftTravel + getRightTravel)/2).revolutions(). -/
def avgRevs (s : SmartState) (i : TrackInput) : ℝ :=
  ((degreesToRad i.leftDeg - s.m_LastLeftPos) + (degreesToRad i.rightDeg - s.m_LastRightPos))
    / 2 / (piAR * 2)

end RealModel

/-- The loop of SmartDrive::driveFor (SmartDrive.cpp lines 98-107),
parameterised by the precomputed target rotation, direction sign and
speed (the pre-loop target arithmetic of lines 93-96 involves
getWheelTravel).  `posF k` is the Degrees-converted average shaft
position read during iteration k; `pos` is the loop variable (initially
the starting offset); fuel bounds the number of iterations, `none`
meaning the loop has not exited yet.  Each iteration emits the
(drive, rot) pair committed by arcade(speed, 0); NO stop command is
emitted after the loop (the source returns without one). -/
def driveForLoop (targetRot dir speed : ℚ) (posF : ℕ → ℚ) :
    ℕ → ℚ → ℕ → Option (List (ℚ × ℚ))
  | 0, _, _ => none
  | fuel + 1, pos, k =>
    if (targetRot - pos) * dir > 0 then
      (driveForLoop targetRot dir speed posF fuel (posF k) (k + 1)).map
        (fun l => (speed, 0) :: l)
    else
      some []

/-- The loop of SmartDrive::driveForPID (SmartDrive.cpp lines 117-127),
parameterised by the precomputed target rotation; `posF k` and `timeF k`
are the average shaft position and the clock at iteration k.  On exit the
source commits arcade(0, 0, 0), emitted here as a final (0, 0). -/
def driveForPIDLoop (targetRot : ℚ) (posF timeF : ℕ → ℚ) :
    ℕ → PIDState → ℕ → Option (List (ℚ × ℚ))
  | 0, _, _ => none
  | fuel + 1, st, k =>
    if PID.isCompleted st (timeF k) then some [(0, 0)]
    else
      let r := PID.calculate st (targetRot - posF k) (timeF k)
      (driveForPIDLoop targetRot posF timeF fuel r.2 (k + 1)).map
        (fun l => (r.1, 0) :: l)

/-- The loop of SmartDrive::turnFor (SmartDrive.cpp lines 140-146);
`rotF k` is the inertial rotation reading (degrees) at iteration k.  The
loop condition is Degrees(targetAngle.degrees() - rotation) * dir > 0.
On exit the source commits arcade(0, 0, 0), emitted as a final (0, 0). -/
def turnForLoop (targetAngle : Angle) (dir speed : ℚ) (rotF : ℕ → ℚ) :
    ℕ → ℕ → Option (List (ℚ × ℚ))
  | 0, _ => none
  | fuel + 1, k =>
    if (Degrees (targetAngle.degrees - rotF k)).m_value * dir > 0 then
      (turnForLoop targetAngle dir speed rotF fuel (k + 1)).map
        (fun l => (0, speed) :: l)
    else
      some [(0, 0)]

/-- The loop of SmartDrive::turnForPID (SmartDrive.cpp lines 155-165);
error = Degrees(targetAngle.degrees() - rotation).  On exit the source
commits arcade(0, 0, 0), emitted as a final (0, 0). -/
def turnForPIDLoop (targetAngle : Angle) (rotF timeF : ℕ → ℚ) :
    ℕ → PIDState → ℕ → Option (List (ℚ × ℚ))
  | 0, _, _ => none
  | fuel + 1, st, k =>
    if PID.isCompleted st (timeF k) then some [(0, 0)]
    else
      let r := PID.calculate st (Degrees (targetAngle.degrees - rotF k)).m_value (timeF k)
      (turnForPIDLoop targetAngle rotF timeF fuel r.2 (k + 1)).map
        (fun l => (0, r.1) :: l)

/-- The loop of SmartDrive::turnTo (SmartDrive.cpp lines 177-191);
`headF k` is the inertial heading reading (degrees) at iteration k; the
loop state is the current error and the errorSign of the previous
iteration.  Both exits commit arcade(0, 0, 0): the early return when the
freshly computed error is below 5 degrees (lines 183-186) and the normal
loop exit (line 191). -/
def turnToLoop (target : Angle) (speed : ℚ) (headF : ℕ → ℚ) :
    ℕ → Angle → ℚ → ℕ → Option (List (ℚ × ℚ))
  | 0, _, _, _ => none
  | fuel + 1, error, errorSign, k =>
    if ¬(|error.degrees| < 10) ∨ errorSign = |error.m_value| / error.m_value then
      let e := shortestTurnPath (Degrees (target.degrees - headF k))
      if |e.degrees| < 5 then some [(0, speed), (0, 0)]
      else
        (turnToLoop target speed headF fuel e (|e.m_value| / e.m_value) (k + 1)).map
          (fun l => (0, speed) :: l)
    else
      some [(0, 0)]

/-- The loop of SmartDrive::turnToPID (SmartDrive.cpp lines 198-208);
error = shortestTurnPath(Degrees(target.degrees() - heading)).  On exit
the source commits arcade(0, 0, 0), emitted as a final (0, 0). -/
def turnToPIDLoop (target : Angle) (headF timeF : ℕ → ℚ) :
    ℕ → PIDState → ℕ → Option (List (ℚ × ℚ))
  | 0, _, _ => none
  | fuel + 1, st, k =>
    if PID.isCompleted st (timeF k) then some [(0, 0)]
    else
      let e := shortestTurnPath (Degrees (target.degrees - headF k))
      let r := PID.calculate st e.m_value (timeF k)
      (turnToPIDLoop target headF timeF fuel r.2 (k + 1)).map
        (fun l => (0, r.1) :: l)

/-! Helper lemmas about the two while-loops of Angle::constrain. -/

theorem piA_pos : (0:ℚ) < piA := by norm_num [piA]

theorem subLoop_le (m : ℚ) : subLoop m ≤ piA := by
  induction m using subLoop.induct with
  | case1 m h ih => rw [subLoop]; simp only [if_pos h]; exact ih
  | case2 m h => rw [subLoop]; simp only [if_neg h]; exact le_of_not_lt h

theorem subLoop_fix {m : ℚ} (h : m ≤ piA) : subLoop m = m := by
  rw [subLoop]; simp only [if_neg (not_lt.mpr h)]

theorem subLoop_steps (m : ℚ) : ∃ k : ℕ, subLoop m = m - k * (2 * piA) := by
  induction m using subLoop.induct with
  | case1 m h ih =>
    obtain ⟨k, hk⟩ := ih
    refine ⟨k + 1, ?_⟩
    rw [subLoop]; simp only [if_pos h]; rw [hk]; push_cast; ring
  | case2 m h =>
    exact ⟨0, by rw [subLoop]; simp only [if_neg h]; push_cast; ring⟩

theorem addLoop_ge (m : ℚ) : -piA ≤ addLoop m := by
  induction m using addLoop.induct with
  | case1 m h ih => rw [addLoop]; simp only [if_pos h]; exact ih
  | case2 m h => rw [addLoop]; simp only [if_neg h]; exact le_of_not_lt h

theorem addLoop_fix {m : ℚ} (h : -piA ≤ m) : addLoop m = m := by
  rw [addLoop]; simp only [if_neg (not_lt.mpr h)]

theorem addLoop_le {m : ℚ} (h : m ≤ piA) : addLoop m ≤ piA := by
  induction m using addLoop.induct with
  | case1 m hm ih =>
    rw [addLoop]; simp only [if_pos hm]
    exact ih (by linarith [piA_pos])
  | case2 m hm => rw [addLoop]; simp only [if_neg hm]; exact h

theorem addLoop_steps (m : ℚ) : ∃ k : ℕ, addLoop m = m + k * (2 * piA) := by
  induction m using addLoop.induct with
  | case1 m h ih =>
    obtain ⟨k, hk⟩ := ih
    refine ⟨k + 1, ?_⟩
    rw [addLoop]; simp only [if_pos h]; rw [hk]; push_cast; ring
  | case2 m h =>
    exact ⟨0, by rw [addLoop]; simp only [if_neg h]; push_cast; ring⟩

theorem constrain_le (a : Angle) : a.constrain.m_value ≤ piA :=
  addLoop_le (subLoop_le a.m_value)

theorem constrain_ge (a : Angle) : -piA ≤ a.constrain.m_value :=
  addLoop_ge (subLoop a.m_value)

theorem constrain_steps (a : Angle) :
    ∃ k : ℤ, a.constrain.m_value = a.m_value + k * (2 * piA) := by
  obtain ⟨k1, h1⟩ := subLoop_steps a.m_value
  obtain ⟨k2, h2⟩ := addLoop_steps (subLoop a.m_value)
  refine ⟨(k2 : ℤ) - k1, ?_⟩
  show (addLoop (subLoop a.m_value)) = _
  rw [h2, h1]; push_cast; ring

/-- C7: Angle::constrain is idempotent, and its result always lies in the
closed interval [-3.14159265, 3.14159265].  (The originally claimed
half-open range is corrected: an input of exactly -3.14159265 is a fixed
point of both loops, so the left end is attained.) -/
theorem constrain_idempotent_closed_range (a : Angle) :
    a.constrain.constrain = a.constrain ∧
    -piA ≤ a.constrain.m_value ∧ a.constrain.m_value ≤ piA := by
  refine ⟨?_, constrain_ge a, constrain_le a⟩
  show (⟨addLoop (subLoop a.constrain.m_value)⟩ : Angle) = a.constrain
  rw [subLoop_fix (constrain_le a), addLoop_fix (constrain_ge a)]

/-- C7 counterexample: on the input whose stored value is exactly
-3.14159265 (-pi in the code's arithmetic), constrain returns the value
unchanged, so the result is NOT inside the open-left interval
(-3.14159265, 3.14159265]. -/
theorem constrain_neg_pi_escapes :
    (Angle.constrain ⟨-piA⟩).m_value = -piA ∧
    ¬(-piA < (Angle.constrain ⟨-piA⟩).m_value) := by
  have h : (Angle.constrain ⟨-piA⟩).m_value = -piA := by
    show addLoop (subLoop (-piA)) = -piA
    rw [subLoop_fix (by linarith [piA_pos]), addLoop_fix (le_refl _)]
  exact ⟨h, by rw [h]; exact lt_irrefl _⟩

/-- C10: both while-loops of Angle::constrain terminate on every input:
the first loop performs finitely many subtractions of one full turn and
exits with a value at most 3.14159265, the second finitely many additions
and exits with a value at least -3.14159265. -/
theorem constrain_loops_terminate (a : Angle) :
    ∃ k1 k2 : ℕ,
      subLoop a.m_value = a.m_value - k1 * (2 * piA) ∧
      subLoop a.m_value ≤ piA ∧
      a.constrain.m_value = subLoop a.m_value + k2 * (2 * piA) ∧
      -piA ≤ a.constrain.m_value := by
  obtain ⟨k1, h1⟩ := subLoop_steps a.m_value
  obtain ⟨k2, h2⟩ := addLoop_steps (subLoop a.m_value)
  exact ⟨k1, k2, h1, subLoop_le a.m_value, h2, constrain_ge a⟩

theorem revolutions_lt_half_iff (a : Angle) :
    |a.revolutions| < 0.5 ↔ |a.m_value| < piA := by
  have h2 : (0:ℚ) < piA * 2 := by linarith [piA_pos]
  rw [Angle.revolutions, abs_div, abs_of_pos h2, div_lt_iff₀ h2]
  constructor <;> intro h <;> linarith

/-- C4 counterexample: shortestTurnPath's constrain step does not land in
the claimed half-open interval (-3.14159265, 3.14159265]: on the input
-3*3.14159265 the constrained value is exactly -3.14159265 (and the
function then returns +3.14159265 through its complementary-angle
branch). -/
theorem shortestTurnPath_constrain_hits_neg_pi :
    (Angle.constrain ⟨-3 * piA⟩).m_value = -piA ∧
    ¬(-piA < (Angle.constrain ⟨-3 * piA⟩).m_value) ∧
    shortestTurnPath ⟨-3 * piA⟩ = ⟨piA⟩ := by
  have hs : subLoop (-3 * piA) = -3 * piA := subLoop_fix (by nlinarith [piA_pos])
  have ha : addLoop (-3 * piA) = -piA := by
    rw [addLoop, if_pos (by nlinarith [piA_pos] : -3 * piA < -piA)]
    rw [show -3 * piA + 2 * piA = -piA by ring, addLoop_fix (le_refl _)]
  have hc : Angle.constrain ⟨-3 * piA⟩ = ⟨-piA⟩ := by
    show (⟨addLoop (subLoop (-3 * piA))⟩ : Angle) = _
    rw [hs, ha]
  refine ⟨by rw [hc], by rw [hc]; exact lt_irrefl _, ?_⟩
  have h2 : (0:ℚ) < piA * 2 := by linarith [piA_pos]
  have hrev : (⟨-piA⟩ : Angle).revolutions = -(1/2) := by
    rw [Angle.revolutions, div_eq_iff (ne_of_gt h2)]; ring
  rw [shortestTurnPath, hc, hrev]
  rw [if_neg (by rw [abs_neg, abs_of_pos (by norm_num : (0:ℚ) < 1/2)]; norm_num),
     if_neg (by norm_num)]
  show Revolutions (1 + -(1/2)) = _
  rw [Revolutions, Angle.mk.injEq]
  ring

/-- C4: shortestTurnPath first wraps its input into the closed interval
[-3.14159265, 3.14159265] (corrected from the claimed half-open one, see
the counterexample), returns the wrapped angle unchanged when its
magnitude is under half a revolution, and in every case produces an angle
of magnitude at most half a revolution that is congruent to the input
modulo one full revolution. -/
theorem shortestTurnPath_minimal_congruent (t : Angle) :
    |(shortestTurnPath t).m_value| ≤ piA ∧
    (∃ k : ℤ, (shortestTurnPath t).m_value = t.m_value + k * (2 * piA)) ∧
    (-piA ≤ t.constrain.m_value ∧ t.constrain.m_value ≤ piA) ∧
    (|t.constrain.revolutions| < 0.5 → shortestTurnPath t = t.constrain) := by
  have hge := constrain_ge t
  have hle := constrain_le t
  have hcong := constrain_steps t
  by_cases hrev : |t.constrain.revolutions| < 0.5
  · have heq : shortestTurnPath t = t.constrain := by
      rw [shortestTurnPath, if_pos hrev]
    refine ⟨?_, ?_, ⟨hge, hle⟩, fun _ => heq⟩
    · rw [heq, abs_le]; exact ⟨hge, hle⟩
    · rw [heq]; exact hcong
  · have habs : ¬(|t.constrain.m_value| < piA) :=
      fun h => hrev ((revolutions_lt_half_iff _).mpr h)
    have hcases : t.constrain.m_value = piA ∨ t.constrain.m_value = -piA := by
      rcases abs_cases t.constrain.m_value with ⟨h1, _⟩ | ⟨h1, _⟩
      · left; linarith [not_lt.mp habs]
      · right; linarith [not_lt.mp habs]
    have h2 : (0:ℚ) < piA * 2 := by linarith [piA_pos]
    rcases hcases with hpos | hneg
    · have hhalf : piA / (piA * 2) = 1 / 2 := by
        rw [div_eq_iff (ne_of_gt h2)]; ring
      have hrpos : t.constrain.revolutions > 0 := by
        rw [Angle.revolutions, hpos, hhalf]; norm_num
      have heq : shortestTurnPath t = Revolutions (1 - t.constrain.revolutions) := by
        rw [shortestTurnPath, if_neg hrev, if_pos hrpos]
      have hval : (shortestTurnPath t).m_value = piA := by
        rw [heq, Revolutions, Angle.revolutions, hpos, hhalf]
        ring
      refine ⟨by rw [hval, abs_of_pos piA_pos], ?_, ⟨hge, hle⟩, fun h => absurd h hrev⟩
      obtain ⟨k, hk⟩ := hcong
      refine ⟨k, ?_⟩
      rw [hval, ← hk, hpos]
    · have hhalf : -piA / (piA * 2) = -(1 / 2) := by
        rw [div_eq_iff (ne_of_gt h2)]; ring
      have hrneg : ¬(t.constrain.revolutions > 0) := by
        rw [Angle.revolutions, hneg, hhalf]; norm_num
      have heq : shortestTurnPath t = Revolutions (1 + t.constrain.revolutions) := by
        rw [shortestTurnPath, if_neg hrev, if_neg hrneg]
      have hval : (shortestTurnPath t).m_value = piA := by
        rw [heq, Revolutions, Angle.revolutions, hneg, hhalf]
        ring
      refine ⟨by rw [hval, abs_of_pos piA_pos], ?_, ⟨hge, hle⟩, fun h => absurd h hrev⟩
      obtain ⟨k, hk⟩ := hcong
      refine ⟨k + 1, ?_⟩
      have hx : -piA = t.m_value + k * (2 * piA) := by rw [← hneg, hk]
      rw [hval]
      push_cast
      linarith [hx]

/-- C4 witness: on the concrete input with stored value 1, the constrained
value has magnitude under half a revolution and shortestTurnPath returns
it unchanged. -/
theorem shortestTurnPath_minimal_congruent_witness :
    |(Angle.constrain ⟨1⟩).revolutions| < 0.5 ∧
    shortestTurnPath ⟨1⟩ = Angle.constrain ⟨1⟩ := by
  have hc : Angle.constrain ⟨1⟩ = ⟨1⟩ := by
    show (⟨addLoop (subLoop 1)⟩ : Angle) = _
    rw [subLoop_fix (by norm_num [piA]), addLoop_fix (by norm_num [piA])]
  have hrev : |(Angle.constrain ⟨1⟩).revolutions| < 0.5 := by
    rw [hc, Angle.revolutions, abs_lt]
    norm_num [piA]
  exact ⟨hrev, (shortestTurnPath_minimal_congruent ⟨1⟩).2.2.2 hrev⟩

/-- C9: every unit constructor/accessor round trip returns its input up to
a relative error of at most one part in a billion (most pairs are exact;
Meters, Centimeters and Millimeters are off by the source's truncated
conversion constants, at relative error 1.08e-12). -/
theorem unit_roundtrips (x : ℚ) :
    |(Pixels x).pixels - x| ≤ |x| / 10 ^ 9 ∧
    |(Inches x).inches - x| ≤ |x| / 10 ^ 9 ∧
    |(Feet x).feet - x| ≤ |x| / 10 ^ 9 ∧
    |(Meters x).meters - x| ≤ |x| / 10 ^ 9 ∧
    |(Centimeters x).centimeters - x| ≤ |x| / 10 ^ 9 ∧
    |(Millimeters x).millimeters - x| ≤ |x| / 10 ^ 9 ∧
    |(Tiles x).tiles - x| ≤ |x| / 10 ^ 9 ∧
    |(Degrees x).degrees - x| ≤ |x| / 10 ^ 9 ∧
    |(Radians x).radians - x| ≤ |x| / 10 ^ 9 ∧
    |(Revolutions x).revolutions - x| ≤ |x| / 10 ^ 9 := by
  have key : ∀ c : ℚ, |c| ≤ 1 / 10 ^ 9 → ∀ y : ℚ, y = x * c → |y| ≤ |x| / 10 ^ 9 := by
    intro c hc y hy
    rw [hy, abs_mul, div_eq_mul_inv]
    exact mul_le_mul_of_nonneg_left (by simpa using hc) (abs_nonneg x)
  refine ⟨?_, ?_, ?_, ?_, ?_, ?_, ?_, ?_, ?_, ?_⟩
  · exact key 0 (by norm_num) _
      (by simp only [Pixels, Length.pixels]; ring)
  · exact key 0 (by norm_num) _
      (by simp only [Inches, Length.inches]; norm_num; ring)
  · exact key 0 (by norm_num) _
      (by simp only [Feet, Length.feet, Length.inches]; norm_num; ring)
  · exact key (27 / 25000000000000) (by rw [abs_of_pos (by norm_num)]; norm_num) _
      (by simp only [Meters, Inches, Length.meters, Length.inches]; norm_num; ring)
  · exact key (27 / 25000000000000) (by rw [abs_of_pos (by norm_num)]; norm_num) _
      (by simp only [Centimeters, Inches, Length.centimeters, Length.inches]; norm_num; ring)
  · exact key (27 / 25000000000000) (by rw [abs_of_pos (by norm_num)]; norm_num) _
      (by simp only [Millimeters, Inches, Length.millimeters, Length.inches]; norm_num; ring)
  · exact key 0 (by norm_num) _
      (by simp only [Tiles, Inches, Length.tiles, Length.inches]; norm_num; ring)
  · exact key 0 (by norm_num) _
      (by simp only [Degrees, Angle.degrees, piA]; field_simp)
  · exact key 0 (by norm_num) _
      (by simp only [Radians, Angle.radians]; ring)
  · exact key 0 (by norm_num) _
      (by simp only [Revolutions, Angle.revolutions, piA]; field_simp; ring)

/-- C2: one call of PID::calculate stores prevError - error as the
derivative, adds the error to the integral exactly when its magnitude is
strictly below the integral zone and resets the integral to 0 otherwise
(so a zone of 0 means the integral never accumulates), returns
kp*error + kd*derivative + ki*integral + ff, and stores the error as the
new prevError. -/
theorem calculate_one_step (s : PIDState) (e now : ℚ) :
    (PID.calculate s e now).2.m_derivative = s.m_prevError - e ∧
    (PID.calculate s e now).2.m_integral =
      (if |e| < s.m_integralZone then s.m_integral + e else 0) ∧
    (s.m_integralZone = 0 → (PID.calculate s e now).2.m_integral = 0) ∧
    (PID.calculate s e now).1 =
      s.m_kp * e + s.m_kd * (s.m_prevError - e) +
        s.m_ki * (PID.calculate s e now).2.m_integral + s.m_ff ∧
    (PID.calculate s e now).2.m_prevError = e := by
  refine ⟨rfl, rfl, ?_, rfl, rfl⟩
  intro hz
  show (if |e| < s.m_integralZone then s.m_integral + e else 0) = 0
  rw [if_neg]
  rw [hz]
  exact not_lt.mpr (abs_nonneg e)

/-- C2 witness: a concrete call with integralZone 0 leaves the integral at
0 and produces the expected output. -/
theorem calculate_one_step_witness :
    (PID.construct 0).m_integralZone = 0 ∧
    (PID.calculate (PID.construct 0) 3 1).2.m_integral = 0 := by
  refine ⟨rfl, ?_⟩
  exact (calculate_one_step (PID.construct 0) 3 1).2.2.1 rfl

/-! Helper lemmas for the PID settle-window trace argument (C3). -/

theorem calculate_preserves_cfg (s : PIDState) (e now : ℚ) :
    (PID.calculate s e now).2.m_timeout = s.m_timeout ∧
    (PID.calculate s e now).2.m_settleTimeout = s.m_settleTimeout ∧
    (PID.calculate s e now).2.m_settleZone = s.m_settleZone ∧
    (PID.calculate s e now).2.m_startTime = s.m_startTime :=
  ⟨rfl, rfl, rfl, rfl⟩

theorem runPID_preserves_cfg (calls : List (ℚ × ℚ)) (s : PIDState) :
    (runPID s calls).m_timeout = s.m_timeout ∧
    (runPID s calls).m_settleTimeout = s.m_settleTimeout ∧
    (runPID s calls).m_settleZone = s.m_settleZone ∧
    (runPID s calls).m_startTime = s.m_startTime := by
  induction calls generalizing s with
  | nil => exact ⟨rfl, rfl, rfl, rfl⟩
  | cons c rest ih => exact ih ((PID.calculate s c.2 c.1).2)

theorem runPID_settled_lower_bound (calls : List (ℚ × ℚ)) (s : PIDState) (a : ℚ)
    (hs : a ≤ s.m_startSettledTime) (hcalls : ∀ c ∈ calls, a ≤ c.1) :
    a ≤ (runPID s calls).m_startSettledTime := by
  induction calls generalizing s with
  | nil => exact hs
  | cons c rest ih =>
    refine ih ((PID.calculate s c.2 c.1).2) ?_ (fun d hd => hcalls d (List.mem_cons_of_mem c hd))
    show a ≤ (if |c.2| > s.m_settleZone then c.1 else s.m_startSettledTime)
    split
    · exact hcalls c (List.mem_cons_self c rest)
    · exact hs

theorem runPID_settled_after_violation (calls : List (ℚ × ℚ)) (s : PIDState)
    (hsorted : List.Pairwise (fun c d => c.1 ≤ d.1) calls) :
    ∀ c ∈ calls, |c.2| > s.m_settleZone →
      c.1 ≤ (runPID s calls).m_startSettledTime := by
  induction calls generalizing s with
  | nil => intro c hc; exact absurd hc (List.not_mem_nil c)
  | cons d rest ih =>
    intro c hc hviol
    have hzone : (PID.calculate s d.2 d.1).2.m_settleZone = s.m_settleZone := rfl
    rcases List.mem_cons.mp hc with hcd | hcr
    · subst hcd
      have hset : (PID.calculate s c.2 c.1).2.m_startSettledTime = c.1 := by
        show (if |c.2| > s.m_settleZone then c.1 else s.m_startSettledTime) = c.1
        rw [if_pos hviol]
      refine runPID_settled_lower_bound rest _ c.1 (le_of_eq hset.symm) ?_
      intro e he
      exact (List.pairwise_cons.mp hsorted).1 e he
    · refine ih ((PID.calculate s d.2 d.1).2) (List.pairwise_cons.mp hsorted).2 c hcr ?_
      rw [hzone]
      exact hviol

/-- C3: PID::isCompleted is true exactly when a nonzero timeout has been
exceeded or a nonzero settle timeout has been exceeded (a value of
exactly 0 disables the corresponding path); and along any time-ordered
trace of calculate calls after a reset, with timeout = 0, settleZone = Z
and settleTimeout = S > 0, completion at time t implies that every call
made within the last S seconds fed an error of magnitude at most Z, and
that at least S seconds have passed since the reset. -/
theorem isCompleted_settle_trace :
    (∀ (s : PIDState) (now : ℚ),
      PID.isCompleted s now = true ↔
        ((PID.timePassed s now > s.m_timeout ∧ s.m_timeout ≠ 0) ∨
         (PID.settledTimePassed s now > s.m_settleTimeout ∧ s.m_settleTimeout ≠ 0))) ∧
    (∀ (s0 : PIDState) (t0 t : ℚ) (calls : List (ℚ × ℚ)),
      s0.m_timeout = 0 →
      0 < s0.m_settleTimeout →
      List.Pairwise (fun c d => c.1 ≤ d.1) calls →
      (∀ c ∈ calls, t0 ≤ c.1) →
      PID.isCompleted (runPID (PID.reset s0 t0) calls) t = true →
        (t0 + s0.m_settleTimeout < t ∧
         ∀ c ∈ calls, t - s0.m_settleTimeout ≤ c.1 → |c.2| ≤ s0.m_settleZone)) := by
  constructor
  · intro s now
    rw [PID.isCompleted]
    split_ifs with h1 h2
    · exact ⟨fun _ => Or.inl h1, fun _ => rfl⟩
    · exact ⟨fun _ => Or.inr h2, fun _ => rfl⟩
    · constructor
      · intro h; exact absurd h (by norm_num)
      · intro h
        rcases h with h | h
        · exact absurd h h1
        · exact absurd h h2
  · intro s0 t0 t calls htz hstz hsorted hts hdone
    have hcfg := runPID_preserves_cfg calls (PID.reset s0 t0)
    have htimeout : (runPID (PID.reset s0 t0) calls).m_timeout = 0 := by
      rw [hcfg.1]; exact htz
    have hsettleT : (runPID (PID.reset s0 t0) calls).m_settleTimeout = s0.m_settleTimeout :=
      hcfg.2.1
    have hzone : (runPID (PID.reset s0 t0) calls).m_settleZone = s0.m_settleZone :=
      hcfg.2.2.1
    rw [PID.isCompleted] at hdone
    rw [if_neg (by rw [htimeout]; exact fun h => h.2 rfl)] at hdone
    have hsettled :
        PID.settledTimePassed (runPID (PID.reset s0 t0) calls) t > s0.m_settleTimeout := by
      by_cases h2 : PID.settledTimePassed (runPID (PID.reset s0 t0) calls) t >
          (runPID (PID.reset s0 t0) calls).m_settleTimeout ∧
          (runPID (PID.reset s0 t0) calls).m_settleTimeout ≠ 0
      · rw [← hsettleT]; exact h2.1
      · rw [if_neg h2] at hdone; exact absurd hdone (by norm_num)
    rw [PID.settledTimePassed] at hsettled
    have hstart0 : t0 ≤ (runPID (PID.reset s0 t0) calls).m_startSettledTime := by
      refine runPID_settled_lower_bound calls (PID.reset s0 t0) t0 (le_of_eq rfl) hts
    constructor
    · linarith
    · intro c hc hwindow
      by_contra hbig
      have hviol : |c.2| > (PID.reset s0 t0).m_settleZone := lt_of_not_le hbig
      have := runPID_settled_after_violation calls (PID.reset s0 t0) hsorted c hc hviol
      linarith

/-- C3 witness: a concrete trace with timeout 0, settle zone 1, settle
timeout 2: after a reset at time 0 and a single in-zone call at time 1,
isCompleted is true at time 4, and the trace conclusion holds. -/
theorem isCompleted_settle_trace_witness :
    ({ PID.construct 0 with m_settleZone := 1, m_settleTimeout := 2 }.m_timeout = 0) ∧
    PID.isCompleted
      (runPID (PID.reset { PID.construct 0 with m_settleZone := 1, m_settleTimeout := 2 } 0)
        [(1, 0)]) 4 = true ∧
    (0 + (2:ℚ) < 4 ∧
      ∀ c ∈ [((1:ℚ), (0:ℚ))], (4:ℚ) - 2 ≤ c.1 → |c.2| ≤ 1) := by
  have hdone : PID.isCompleted
      (runPID (PID.reset { PID.construct 0 with m_settleZone := 1, m_settleTimeout := 2 } 0)
        [(1, 0)]) 4 = true := by
    norm_num [PID.isCompleted, runPID, PID.calculate, PID.reset, PID.construct,
      PID.timePassed, PID.settledTimePassed]
  refine ⟨rfl, hdone, ?_⟩
  have := isCompleted_settle_trace.2
    { PID.construct 0 with m_settleZone := 1, m_settleTimeout := 2 } 0 4 [(1, 0)]
    rfl (by norm_num) (by simp) (by norm_num) hdone
  simpa using this

/-- C6: TankDrive::tank(left, right) is exactly
arcade(left + right, left - right): it stores cmdY = left + right and
cmdRot = left - right and commits leftCmd = cmdY + cmdRot,
rightCmd = cmdY - cmdRot with no upper clamp; in particular tank(5, 3)
gives drive 8, rot 2, left command 10 and right command 6. -/
theorem tank_is_arcade_recombination (d : TankDrive) (l r : ℚ) :
    d.tank l r = d.arcade (l + r) (l - r) ∧
    (d.tank l r).m_cmdY = l + r ∧
    (d.tank l r).m_cmdRot = l - r ∧
    (d.tank l r).leftCmd = (l + r) + (l - r) ∧
    (d.tank l r).rightCmd = (l + r) - (l - r) ∧
    (d.tank 5 3).m_cmdY = 8 ∧
    (d.tank 5 3).m_cmdRot = 2 ∧
    (d.tank 5 3).leftCmd = 10 ∧
    (d.tank 5 3).rightCmd = 6 := by
  refine ⟨rfl, rfl, rfl, rfl, rfl, ?_, ?_, ?_, ?_⟩ <;>
    simp [TankDrive.tank, TankDrive.update] <;> norm_num

/-! Helper lemmas for the stop-command behaviour of the blocking motion
loops (C5). -/

theorem getLast_of_cons {a x : ℚ × ℚ} {l : List (ℚ × ℚ)} (hne : l ≠ [])
    (h : l.getLast? = some x) : (a :: l).getLast? = some x := by
  cases l with
  | nil => exact absurd rfl hne
  | cons b t => rw [List.getLast?_cons_cons]; exact h

theorem driveForLoop_all_speed (targetRot dir speed : ℚ) (posF : ℕ → ℚ) :
    ∀ (fuel : ℕ) (pos : ℚ) (k : ℕ) (cmds : List (ℚ × ℚ)),
      driveForLoop targetRot dir speed posF fuel pos k = some cmds →
      ∀ c ∈ cmds, c = (speed, 0) := by
  intro fuel
  induction fuel with
  | zero => intro pos k cmds h; exact absurd h (by rw [driveForLoop]; exact Option.noConfusion)
  | succ n ih =>
    intro pos k cmds h
    rw [driveForLoop] at h
    split at h
    · rcases Option.map_eq_some'.mp h with ⟨l, hl, hcmds⟩
      subst hcmds
      intro c hc
      rcases List.mem_cons.mp hc with hc | hc
      · exact hc
      · exact ih (posF k) (k + 1) l hl c hc
    · intro c hc
      rw [← Option.some_inj.mp h] at hc
      exact absurd hc (List.not_mem_nil c)

theorem turnForLoop_stops (targetAngle : Angle) (dir speed : ℚ) (rotF : ℕ → ℚ) :
    ∀ (fuel k : ℕ) (cmds : List (ℚ × ℚ)),
      turnForLoop targetAngle dir speed rotF fuel k = some cmds →
      cmds ≠ [] ∧ cmds.getLast? = some (0, 0) := by
  intro fuel
  induction fuel with
  | zero => intro k cmds h; exact absurd h (by rw [turnForLoop]; exact Option.noConfusion)
  | succ n ih =>
    intro k cmds h
    rw [turnForLoop] at h
    split at h
    · rcases Option.map_eq_some'.mp h with ⟨l, hl, hcmds⟩
      subst hcmds
      obtain ⟨hne, hlast⟩ := ih (k + 1) l hl
      exact ⟨List.cons_ne_nil _ _, getLast_of_cons hne hlast⟩
    · rw [← Option.some_inj.mp h]
      exact ⟨List.cons_ne_nil _ _, rfl⟩

theorem turnToLoop_stops (target : Angle) (speed : ℚ) (headF : ℕ → ℚ) :
    ∀ (fuel : ℕ) (error : Angle) (errorSign : ℚ) (k : ℕ) (cmds : List (ℚ × ℚ)),
      turnToLoop target speed headF fuel error errorSign k = some cmds →
      cmds ≠ [] ∧ cmds.getLast? = some (0, 0) := by
  intro fuel
  induction fuel with
  | zero =>
    intro e es k cmds h
    exact absurd h (by rw [turnToLoop]; exact Option.noConfusion)
  | succ n ih =>
    intro e es k cmds h
    rw [turnToLoop] at h
    split at h
    · dsimp only at h
      split at h
      · rw [← Option.some_inj.mp h]
        exact ⟨List.cons_ne_nil _ _, rfl⟩
      · rcases Option.map_eq_some'.mp h with ⟨l, hl, hcmds⟩
        subst hcmds
        obtain ⟨hne, hlast⟩ := ih _ _ (k + 1) l hl
        exact ⟨List.cons_ne_nil _ _, getLast_of_cons hne hlast⟩
    · rw [← Option.some_inj.mp h]
      exact ⟨List.cons_ne_nil _ _, rfl⟩

theorem driveForPIDLoop_stops (targetRot : ℚ) (posF timeF : ℕ → ℚ) :
    ∀ (fuel : ℕ) (st : PIDState) (k : ℕ) (cmds : List (ℚ × ℚ)),
      driveForPIDLoop targetRot posF timeF fuel st k = some cmds →
      cmds ≠ [] ∧ cmds.getLast? = some (0, 0) := by
  intro fuel
  induction fuel with
  | zero =>
    intro st k cmds h
    exact absurd h (by rw [driveForPIDLoop]; exact Option.noConfusion)
  | succ n ih =>
    intro st k cmds h
    rw [driveForPIDLoop] at h
    split at h
    · rw [← Option.some_inj.mp h]
      exact ⟨List.cons_ne_nil _ _, rfl⟩
    · rcases Option.map_eq_some'.mp h with ⟨l, hl, hcmds⟩
      subst hcmds
      obtain ⟨hne, hlast⟩ := ih _ (k + 1) l hl
      exact ⟨List.cons_ne_nil _ _, getLast_of_cons hne hlast⟩

theorem turnForPIDLoop_stops (targetAngle : Angle) (rotF timeF : ℕ → ℚ) :
    ∀ (fuel : ℕ) (st : PIDState) (k : ℕ) (cmds : List (ℚ × ℚ)),
      turnForPIDLoop targetAngle rotF timeF fuel st k = some cmds →
      cmds ≠ [] ∧ cmds.getLast? = some (0, 0) := by
  intro fuel
  induction fuel with
  | zero =>
    intro st k cmds h
    exact absurd h (by rw [turnForPIDLoop]; exact Option.noConfusion)
  | succ n ih =>
    intro st k cmds h
    rw [turnForPIDLoop] at h
    split at h
    · rw [← Option.some_inj.mp h]
      exact ⟨List.cons_ne_nil _ _, rfl⟩
    · rcases Option.map_eq_some'.mp h with ⟨l, hl, hcmds⟩
      subst hcmds
      obtain ⟨hne, hlast⟩ := ih _ (k + 1) l hl
      exact ⟨List.cons_ne_nil _ _, getLast_of_cons hne hlast⟩

theorem turnToPIDLoop_stops (target : Angle) (headF timeF : ℕ → ℚ) :
    ∀ (fuel : ℕ) (st : PIDState) (k : ℕ) (cmds : List (ℚ × ℚ)),
      turnToPIDLoop target headF timeF fuel st k = some cmds →
      cmds ≠ [] ∧ cmds.getLast? = some (0, 0) := by
  intro fuel
  induction fuel with
  | zero =>
    intro st k cmds h
    exact absurd h (by rw [turnToPIDLoop]; exact Option.noConfusion)
  | succ n ih =>
    intro st k cmds h
    rw [turnToPIDLoop] at h
    split at h
    · rw [← Option.some_inj.mp h]
      exact ⟨List.cons_ne_nil _ _, rfl⟩
    · rcases Option.map_eq_some'.mp h with ⟨l, hl, hcmds⟩
      subst hcmds
      obtain ⟨hne, hlast⟩ := ih _ (k + 1) l hl
      exact ⟨List.cons_ne_nil _ _, getLast_of_cons hne hlast⟩

/-- C5 counterexample: SmartDrive::turnFor does NOT exit without an
explicit stop: on a run whose loop condition is false at the first check,
the emitted command sequence is exactly the final arcade(0, 0, 0) stop,
contradicting the claim that the open-loop turn variants return without
commanding zero.  (turnFor's loop is followed by arcade(0, 0, 0) at
SmartDrive.cpp line 146, and both exits of turnTo commit arcade(0, 0, 0)
at lines 184 and 191; only driveFor returns without one.) -/
theorem turnFor_explicit_stop_counterexample :
    turnForLoop (Degrees 90) 1 50 (fun _ => 180) 1 0 = some [(0, 0)] := by
  rw [turnForLoop, if_neg]
  simp only [Degrees, Angle.degrees, piA]
  norm_num

/-- C5 (amended): on every run that exits its loop, each of turnFor,
turnTo, driveForPID, turnForPID and turnToPID ends its command sequence
with an explicit zero drive/turn command, while driveFor alone emits only
(speed, 0) commands and returns without an explicit stop. -/
theorem blocking_primitives_stop_commands :
    (∀ (targetRot dir speed : ℚ) (posF : ℕ → ℚ) (fuel : ℕ) (pos : ℚ) (k : ℕ)
        (cmds : List (ℚ × ℚ)),
      driveForLoop targetRot dir speed posF fuel pos k = some cmds →
      ∀ c ∈ cmds, c = (speed, 0)) ∧
    (∀ (targetAngle : Angle) (dir speed : ℚ) (rotF : ℕ → ℚ) (fuel k : ℕ)
        (cmds : List (ℚ × ℚ)),
      turnForLoop targetAngle dir speed rotF fuel k = some cmds →
      cmds.getLast? = some (0, 0)) ∧
    (∀ (target : Angle) (speed : ℚ) (headF : ℕ → ℚ) (fuel : ℕ) (error : Angle)
        (errorSign : ℚ) (k : ℕ) (cmds : List (ℚ × ℚ)),
      turnToLoop target speed headF fuel error errorSign k = some cmds →
      cmds.getLast? = some (0, 0)) ∧
    (∀ (targetRot : ℚ) (posF timeF : ℕ → ℚ) (fuel : ℕ) (st : PIDState) (k : ℕ)
        (cmds : List (ℚ × ℚ)),
      driveForPIDLoop targetRot posF timeF fuel st k = some cmds →
      cmds.getLast? = some (0, 0)) ∧
    (∀ (targetAngle : Angle) (rotF timeF : ℕ → ℚ) (fuel : ℕ) (st : PIDState) (k : ℕ)
        (cmds : List (ℚ × ℚ)),
      turnForPIDLoop targetAngle rotF timeF fuel st k = some cmds →
      cmds.getLast? = some (0, 0)) ∧
    (∀ (target : Angle) (headF timeF : ℕ → ℚ) (fuel : ℕ) (st : PIDState) (k : ℕ)
        (cmds : List (ℚ × ℚ)),
      turnToPIDLoop target headF timeF fuel st k = some cmds →
      cmds.getLast? = some (0, 0)) := by
  refine ⟨?_, ?_, ?_, ?_, ?_, ?_⟩
  · exact fun tr d sp pF fuel pos k cmds h => driveForLoop_all_speed tr d sp pF fuel pos k cmds h
  · exact fun ta d sp rF fuel k cmds h => (turnForLoop_stops ta d sp rF fuel k cmds h).2
  · exact fun t sp hF fuel e es k cmds h => (turnToLoop_stops t sp hF fuel e es k cmds h).2
  · exact fun tr pF tF fuel st k cmds h => (driveForPIDLoop_stops tr pF tF fuel st k cmds h).2
  · exact fun ta rF tF fuel st k cmds h => (turnForPIDLoop_stops ta rF tF fuel st k cmds h).2
  · exact fun t hF tF fuel st k cmds h => (turnToPIDLoop_stops t hF tF fuel st k cmds h).2

/-- C5 witness: concrete runs of each primitive exercising the theorem:
driveFor exits immediately having emitted nothing, each of the other five
exits with a trailing zero command. -/
theorem blocking_primitives_stop_commands_witness :
    (driveForLoop 0 1 50 (fun _ => 0) 1 0 0 = some [] ∧
      ∀ c ∈ ([] : List (ℚ × ℚ)), c = (50, 0)) ∧
    (turnForLoop (Degrees 90) 1 50 (fun _ => 200) 1 0 = some [(0, 0)] ∧
      ([((0:ℚ), (0:ℚ))]).getLast? = some (0, 0)) ∧
    (turnToLoop (Degrees 0) 50 (fun _ => 0) 1 ⟨0⟩ 5 0 = some [(0, 0)] ∧
      ([((0:ℚ), (0:ℚ))]).getLast? = some (0, 0)) ∧
    (driveForPIDLoop 0 (fun _ => 0) (fun _ => 5) 1
        { PID.construct 0 with m_timeout := 1 } 0 = some [(0, 0)] ∧
      ([((0:ℚ), (0:ℚ))]).getLast? = some (0, 0)) ∧
    (turnForPIDLoop (Degrees 90) (fun _ => 0) (fun _ => 5) 1
        { PID.construct 0 with m_timeout := 1 } 0 = some [(0, 0)] ∧
      ([((0:ℚ), (0:ℚ))]).getLast? = some (0, 0)) ∧
    (turnToPIDLoop (Degrees 90) (fun _ => 0) (fun _ => 5) 1
        { PID.construct 0 with m_timeout := 1 } 0 = some [(0, 0)] ∧
      ([((0:ℚ), (0:ℚ))]).getLast? = some (0, 0)) := by
  have hcompl : PID.isCompleted { PID.construct 0 with m_timeout := 1 } 5 = true := by
    norm_num [PID.isCompleted, PID.timePassed, PID.construct]
  have h1 : driveForLoop 0 1 50 (fun _ => 0) 1 0 0 = some [] := by
    rw [driveForLoop, if_neg]
    norm_num
  have h2 : turnForLoop (Degrees 90) 1 50 (fun _ => 200) 1 0 = some [(0, 0)] := by
    rw [turnForLoop, if_neg]
    simp only [Degrees, Angle.degrees, piA]
    norm_num
  have h3 : turnToLoop (Degrees 0) 50 (fun _ => 0) 1 ⟨0⟩ 5 0 = some [(0, 0)] := by
    rw [turnToLoop, if_neg]
    simp only [Angle.degrees, piA]
    norm_num
  have h4 : driveForPIDLoop 0 (fun _ => 0) (fun _ => 5) 1
      { PID.construct 0 with m_timeout := 1 } 0 = some [(0, 0)] := by
    rw [driveForPIDLoop, if_pos hcompl]
  have h5 : turnForPIDLoop (Degrees 90) (fun _ => 0) (fun _ => 5) 1
      { PID.construct 0 with m_timeout := 1 } 0 = some [(0, 0)] := by
    rw [turnForPIDLoop, if_pos hcompl]
  have h6 : turnToPIDLoop (Degrees 90) (fun _ => 0) (fun _ => 5) 1
      { PID.construct 0 with m_timeout := 1 } 0 = some [(0, 0)] := by
    rw [turnToPIDLoop, if_pos hcompl]
  refine ⟨⟨h1, blocking_primitives_stop_commands.1 0 1 50 (fun _ => 0) 1 0 0 [] h1⟩,
          ⟨h2, blocking_primitives_stop_commands.2.1 (Degrees 90) 1 50 (fun _ => 200) 1 0 _ h2⟩,
          ⟨h3, blocking_primitives_stop_commands.2.2.1 (Degrees 0) 50 (fun _ => 0) 1 ⟨0⟩ 5 0 _ h3⟩,
          ⟨h4, blocking_primitives_stop_commands.2.2.2.1 0 (fun _ => 0) (fun _ => 5) 1 _ 0 _ h4⟩,
          ⟨h5, blocking_primitives_stop_commands.2.2.2.2.1 (Degrees 90) (fun _ => 0) (fun _ => 5)
            1 _ 0 _ h5⟩,
          ⟨h6, blocking_primitives_stop_commands.2.2.2.2.2 (Degrees 90) (fun _ => 0) (fun _ => 5)
            1 _ 0 _ h6⟩⟩

/-- C8: Vec2::normalize and the |target|/target sign computation are
correct exactly on nonzero inputs and unguarded at zero: when the
magnitude is nonzero the normalized vector has magnitude 1, and when the
target is nonzero the sign is exactly 1 or -1; at the zero vector the
divisor (the magnitude) is 0 and the result violates the unit-magnitude
contract, and at a zero target the sign is neither 1 nor -1 (the source
divides by zero there; in C++ the quotient is NaN/Inf, which equally
fails these contracts). -/
theorem unguarded_division_contracts :
    (∀ v : Vec2, v.magnitude ≠ 0 → (v.normalize).magnitude = 1) ∧
    (Vec2.magnitude ⟨0, 0⟩ = 0) ∧
    ((Vec2.normalize ⟨0, 0⟩).magnitude ≠ 1) ∧
    (∀ t : ℝ, 0 < t → dirSign t = 1) ∧
    (∀ t : ℝ, t < 0 → dirSign t = -1) ∧
    (dirSign 0 ≠ 1 ∧ dirSign 0 ≠ -1) := by
  have hzero : Vec2.magnitude ⟨0, 0⟩ = 0 := by
    rw [Vec2.magnitude]
    norm_num
  refine ⟨?_, hzero, ?_, ?_, ?_, ?_⟩
  · intro v hm
    have hnn : 0 ≤ v.magnitude := Real.sqrt_nonneg _
    have hpos : 0 < v.magnitude := lt_of_le_of_ne hnn (Ne.symm hm)
    show Real.sqrt ((v.x * (1 / v.magnitude)) ^ 2 + (v.y * (1 / v.magnitude)) ^ 2) = 1
    have hsplit : (v.x * (1 / v.magnitude)) ^ 2 + (v.y * (1 / v.magnitude)) ^ 2 =
        (v.x ^ 2 + v.y ^ 2) * (1 / v.magnitude) ^ 2 := by ring
    rw [hsplit, Real.sqrt_mul (by positivity), Real.sqrt_sq_eq_abs,
       abs_of_pos (by positivity)]
    show v.magnitude * (1 / v.magnitude) = 1
    field_simp
  · simp only [Vec2.normalize, Vec2.XandY, zero_mul]
    rw [hzero]
    norm_num
  · intro t ht
    rw [dirSign, abs_of_pos ht, div_self (ne_of_gt ht)]
  · intro t ht
    rw [dirSign, abs_of_neg ht, neg_div, div_self (ne_of_lt ht)]
  · rw [dirSign]
    norm_num

/-- C8 witness: the vector (3, 4) has nonzero magnitude 5 and normalizes
to a unit vector; the targets 2 and -3 are nonzero and get signs 1 and
-1. -/
theorem unguarded_division_contracts_witness :
    Vec2.magnitude ⟨3, 4⟩ ≠ 0 ∧ (Vec2.normalize ⟨3, 4⟩).magnitude = 1 ∧
    (0:ℝ) < 2 ∧ dirSign 2 = 1 ∧
    (-3:ℝ) < 0 ∧ dirSign (-3) = -1 := by
  have hmag : Vec2.magnitude ⟨3, 4⟩ = 5 := by
    rw [Vec2.magnitude]
    show Real.sqrt ((3:ℝ) ^ 2 + (4:ℝ) ^ 2) = 5
    rw [show ((3:ℝ) ^ 2 + (4:ℝ) ^ 2) = 5 ^ 2 by norm_num, Real.sqrt_sq (by norm_num)]
  have hne : Vec2.magnitude ⟨3, 4⟩ ≠ 0 := by rw [hmag]; norm_num
  exact ⟨hne, unguarded_division_contracts.1 ⟨3, 4⟩ hne,
    by norm_num, unguarded_division_contracts.2.2.2.1 2 (by norm_num),
    by norm_num, unguarded_division_contracts.2.2.2.2.1 (-3) (by norm_num)⟩

/-! Helper bounds comparing the source's Degrees constant 3.14159265 with
the true pi, for the odometry claims (C1). -/

theorem gap_bounds : 0 < Real.pi / 2 - piAR / 2 ∧ Real.pi / 2 - piAR / 2 < 1 / 10 ^ 8 := by
  have h1 := Real.pi_gt_d20
  have h2 := Real.pi_lt_d20
  constructor <;> (rw [piAR]; norm_num at h1 h2 ⊢) <;> linarith

theorem sin_gap : 0 ≤ Real.sin (Real.pi / 2 - piAR / 2) ∧
    Real.sin (Real.pi / 2 - piAR / 2) < 1 / 10 ^ 8 := by
  obtain ⟨hpos, hlt⟩ := gap_bounds
  constructor
  · exact Real.sin_nonneg_of_nonneg_of_le_pi hpos.le (by linarith [Real.pi_gt_three])
  · calc Real.sin (Real.pi / 2 - piAR / 2) ≤ Real.pi / 2 - piAR / 2 := Real.sin_le hpos.le
      _ < 1 / 10 ^ 8 := hlt

theorem cos_gap : 1 - 1 / 10 ^ 16 ≤ Real.cos (Real.pi / 2 - piAR / 2) ∧
    Real.cos (Real.pi / 2 - piAR / 2) ≤ 1 := by
  obtain ⟨hpos, hlt⟩ := gap_bounds
  refine ⟨?_, Real.cos_le_one _⟩
  have hhalf : Real.sin ((Real.pi / 2 - piAR / 2) / 2) ^ 2 =
      1 / 2 - Real.cos (Real.pi / 2 - piAR / 2) / 2 := by
    have h := Real.sin_sq_eq_half_sub ((Real.pi / 2 - piAR / 2) / 2)
    rw [show 2 * ((Real.pi / 2 - piAR / 2) / 2) = Real.pi / 2 - piAR / 2 by ring] at h
    exact h
  have habs : Real.sin ((Real.pi / 2 - piAR / 2) / 2) ^ 2 ≤
      ((Real.pi / 2 - piAR / 2) / 2) ^ 2 := by
    have h := Real.abs_sin_le_abs (x := (Real.pi / 2 - piAR / 2) / 2)
    calc Real.sin ((Real.pi / 2 - piAR / 2) / 2) ^ 2
        = |Real.sin ((Real.pi / 2 - piAR / 2) / 2)| ^ 2 := (sq_abs _).symm
      _ ≤ |(Real.pi / 2 - piAR / 2) / 2| ^ 2 := by
          exact pow_le_pow_left₀ (abs_nonneg _) h 2
      _ = ((Real.pi / 2 - piAR / 2) / 2) ^ 2 := sq_abs _
  nlinarith [hhalf, habs, hpos, hlt]

theorem sin_deg90 : Real.sin (degreesToRad 90) = Real.cos (Real.pi / 2 - piAR / 2) := by
  rw [degreesToRad, show (90:ℝ) * piAR / 180 = Real.pi / 2 - (Real.pi / 2 - piAR / 2) by ring,
      Real.sin_pi_div_two_sub]

theorem cos_deg90 : Real.cos (degreesToRad 90) = Real.sin (Real.pi / 2 - piAR / 2) := by
  rw [degreesToRad, show (90:ℝ) * piAR / 180 = Real.pi / 2 - (Real.pi / 2 - piAR / 2) by ring,
      Real.cos_pi_div_two_sub]

/-- C1 counterexample: the claimed exact delta (x = pi*D, y = 0) at a
heading of 90 degrees does not hold: with wheel diameter 1, gear ratio 1,
no lateral tracker, both shafts advancing exactly one revolution (360
degrees) and the heading reading 90 degrees, the y component of the
tracked position change is nonzero (it equals pi * sin(pi/2 -
3.14159265/2), about 5.6e-9, because Degrees converts 90 with the
truncated constant 3.14159265 rather than pi). -/
theorem trackIter_heading90_delta_not_exact :
    (trackIter 1 1 none ⟨0, 0, 0, 0, ⟨0, 0⟩, ⟨0, 0⟩⟩ ⟨90, 360, 360, 0⟩).m_pos.y ≠ 0 := by
  have htravel : ((degreesToRad 360 - 0) + (degreesToRad 360 - 0)) / 2 / (piAR * 2) *
      getWheelTravel 1 1 = Real.pi := by
    rw [degreesToRad, getWheelTravel, piAR]
    norm_num
  show (0:ℝ) + ((degreesToRad 360 - 0) + (degreesToRad 360 - 0)) / 2 / (piAR * 2) *
      getWheelTravel 1 1 * Real.cos (degreesToRad 90) ≠ 0
  rw [htravel, cos_deg90, zero_add]
  obtain ⟨hpos, hlt⟩ := gap_bounds
  have hsinpos : 0 < Real.sin (Real.pi / 2 - piAR / 2) :=
    Real.sin_pos_of_pos_of_lt_pi hpos (by linarith [Real.pi_gt_three])
  positivity

/-- C1 (amended): on every no-tracker iteration of SmartDrive::track, the
drivetrain contribution to the tracked position is the displacement
vector at the current heading (compass convention) with magnitude
avgRevs * (pi * wheelDiameter * gearRatio); the dirAndMag vector at any
heading has exactly that magnitude; with both shafts advancing one
revolution, gear ratio 1 and heading reading 0 the delta is exactly
(0, pi*D); with heading reading 90 the delta equals (pi*D, 0) only up to
the error of the source's nine-digit pi constant, bounded by |D|/10^12 in
x and |D|/10^5 in y. -/
theorem trackIter_drivetrain_displacement :
    (∀ (ws g : ℝ) (s : SmartState) (i : TrackInput),
      (trackIter ws g none s i).m_pos =
        s.m_pos.add (Vec2.dirAndMag (degreesToRad i.headingDeg)
          (avgRevs s i * getWheelTravel ws g))) ∧
    (∀ (h m : ℝ), (Vec2.dirAndMag h m).magnitude = |m|) ∧
    (∀ (D : ℝ) (p : Vec2),
      (trackIter D 1 none ⟨0, 0, 0, 0, p, p⟩ ⟨0, 360, 360, 0⟩).m_pos.x = p.x ∧
      (trackIter D 1 none ⟨0, 0, 0, 0, p, p⟩ ⟨0, 360, 360, 0⟩).m_pos.y = p.y + Real.pi * D) ∧
    (∀ (D : ℝ) (p : Vec2),
      |(trackIter D 1 none ⟨0, 0, 0, 0, p, p⟩ ⟨90, 360, 360, 0⟩).m_pos.x -
          (p.x + Real.pi * D)| ≤ |D| / 10 ^ 12 ∧
      |(trackIter D 1 none ⟨0, 0, 0, 0, p, p⟩ ⟨90, 360, 360, 0⟩).m_pos.y - p.y| ≤
        |D| / 10 ^ 5) := by
  refine ⟨fun ws g s i => rfl, ?_, ?_, ?_⟩
  · intro h m
    rw [Vec2.dirAndMag, Vec2.magnitude]
    show Real.sqrt ((m * Real.sin h) ^ 2 + (m * Real.cos h) ^ 2) = |m|
    have key : (m * Real.sin h) ^ 2 + (m * Real.cos h) ^ 2 = m ^ 2 := by
      nlinarith [Real.sin_sq_add_cos_sq h]
    rw [key, Real.sqrt_sq_eq_abs]
  · intro D p
    have htravel : ((degreesToRad 360 - 0) + (degreesToRad 360 - 0)) / 2 / (piAR * 2) *
        getWheelTravel D 1 = Real.pi * D := by
      rw [degreesToRad, getWheelTravel, piAR]
      norm_num
    constructor
    · show p.x + ((degreesToRad 360 - 0) + (degreesToRad 360 - 0)) / 2 / (piAR * 2) *
        getWheelTravel D 1 * Real.sin (degreesToRad 0) = p.x
      rw [htravel, degreesToRad]
      norm_num
    · show p.y + ((degreesToRad 360 - 0) + (degreesToRad 360 - 0)) / 2 / (piAR * 2) *
        getWheelTravel D 1 * Real.cos (degreesToRad 0) = p.y + Real.pi * D
      rw [htravel, degreesToRad]
      norm_num
  · intro D p
    have htravel : ((degreesToRad 360 - 0) + (degreesToRad 360 - 0)) / 2 / (piAR * 2) *
        getWheelTravel D 1 = Real.pi * D := by
      rw [degreesToRad, getWheelTravel, piAR]
      norm_num
    have hpi := Real.pi_pos
    have hpile := Real.pi_lt_d2
    have hs := sin_gap
    have hc := cos_gap
    constructor
    · show |p.x + ((degreesToRad 360 - 0) + (degreesToRad 360 - 0)) / 2 / (piAR * 2) *
        getWheelTravel D 1 * Real.sin (degreesToRad 90) - (p.x + Real.pi * D)| ≤ |D| / 10 ^ 12
      rw [htravel, sin_deg90]
      rw [show p.x + Real.pi * D * Real.cos (Real.pi / 2 - piAR / 2) - (p.x + Real.pi * D) =
          Real.pi * D * (Real.cos (Real.pi / 2 - piAR / 2) - 1) by ring]
      rw [abs_mul, abs_mul, abs_of_pos hpi]
      have hd1 : |Real.cos (Real.pi / 2 - piAR / 2) - 1| ≤ 1 / 10 ^ 16 := by
        rw [abs_le]
        constructor <;> [linarith [hc.1]; linarith [hc.2]]
      calc Real.pi * |D| * |Real.cos (Real.pi / 2 - piAR / 2) - 1|
          ≤ Real.pi * |D| * (1 / 10 ^ 16) := by
            exact mul_le_mul_of_nonneg_left hd1 (by positivity)
        _ ≤ |D| / 10 ^ 12 := by nlinarith [abs_nonneg D]
    · show |p.y + ((degreesToRad 360 - 0) + (degreesToRad 360 - 0)) / 2 / (piAR * 2) *
        getWheelTravel D 1 * Real.cos (degreesToRad 90) - p.y| ≤ |D| / 10 ^ 5
      rw [htravel, cos_deg90]
      rw [show p.y + Real.pi * D * Real.sin (Real.pi / 2 - piAR / 2) - p.y =
          Real.pi * D * Real.sin (Real.pi / 2 - piAR / 2) by ring]
      rw [abs_mul, abs_mul, abs_of_pos hpi]
      have hd1 : |Real.sin (Real.pi / 2 - piAR / 2)| ≤ 1 / 10 ^ 8 := by
        rw [abs_of_nonneg hs.1]
        linarith [hs.2]
      calc Real.pi * |D| * |Real.sin (Real.pi / 2 - piAR / 2)|
          ≤ Real.pi * |D| * (1 / 10 ^ 8) := by
            exact mul_le_mul_of_nonneg_left hd1 (by positivity)
        _ ≤ |D| / 10 ^ 5 := by nlinarith [abs_nonneg D]

end ART
